import Mathlib

/-
Verification of the optest operator runners (matmul_runner.cpp,
matmul_kernel.cpp, op_runner.cpp) against their specification.

The C++ sources are embedded shallowly: text is List Char, raw files are
lists of bytes, int64_t values are mathematical integers reduced by an
explicit two of-complement wrap, and thrown runtime errors become an
Except value over an error taxonomy.
-/

namespace Optest

/-- Error taxonomy of the runners.  Each constructor stands for one family of
runtime_error messages thrown by the C++ sources: open, read or write failure;
byte length not aligned to the dtype width or operand sizes not matching the
shape; an unrecognized dtype tag; fewer than four numbers in the shape text;
inconsistent dimensions in the shape text. -/
inductive OpError where
  | ioError
  | sizeMismatchError
  | unsupportedDtypeError (tag : String)
  | shapeFormatError
  | shapeMismatchError
deriving DecidableEq, Repr

/-- Two of-complement wraparound of a mathematical integer into the int64_t
range, the value range of the accumulator in extract_numbers
(matmul_runner.cpp lines 40 to 60). -/
def int64wrap (x : Int) : Int := (x + 2 ^ 63) % 2 ^ 64 - 2 ^ 63

/-- The digit test of extract_numbers: the C++ condition c >= '0' && c <= '9'
compares byte values, 48 and 57 being the codes of the two bounds. -/
def isDigitCh (c : Char) : Bool := decide (48 ≤ c.toNat ∧ c.toNat ≤ 57)

/-- One accumulation step of extract_numbers: current = current * 10 +
(c - '0'), performed on int64_t. -/
def accStep (v : Int) (c : Char) : Int := int64wrap (v * 10 + ((c.toNat : Int) - 48))

/-- The scanning loop of extract_numbers (matmul_runner.cpp lines 40 to 60):
values is the vector built so far, current the open accumulator and in_number
whether a digit run is open; a finished run is pushed on each non-digit and
once more after the last character. -/
def extractLoop (cs : List Char) (values : List Int) (current : Int)
    (in_number : Bool) : List Int :=
  match cs with
  | [] => if in_number then values ++ [current] else values
  | c :: rest =>
    if isDigitCh c then
      extractLoop rest values (accStep current c) true
    else if in_number then
      extractLoop rest (values ++ [current]) 0 false
    else
      extractLoop rest values current false

/-- extract_numbers of matmul_runner.cpp: scan the text and collect every
maximal digit run as one int64_t value. -/
def extract_numbers (text : List Char) : List Int :=
  extractLoop text [] 0 false

/-- Companion of extractLoop with an unbounded natural-number accumulator,
used to express which inputs keep the int64_t accumulation inside its range. -/
def extractLoopN (cs : List Char) (values : List Nat) (current : Nat)
    (in_number : Bool) : List Nat :=
  match cs with
  | [] => if in_number then values ++ [current] else values
  | c :: rest =>
    if isDigitCh c then
      extractLoopN rest values (current * 10 + (c.toNat - 48)) true
    else if in_number then
      extractLoopN rest (values ++ [current]) 0 false
    else
      extractLoopN rest values current false

/-- The unbounded-accumulator companion of extract_numbers. -/
def extract_numbersN (text : List Char) : List Nat :=
  extractLoopN text [] 0 false

/-- The maximal runs of ASCII decimal digits of a text, in order of
occurrence; every other character only separates runs. -/
def digitRuns (cs : List Char) : List (List Char) :=
  match cs with
  | [] => []
  | c :: rest =>
    if isDigitCh c then
      (c :: rest.takeWhile isDigitCh) :: digitRuns (rest.dropWhile isDigitCh)
    else
      digitRuns rest
termination_by cs.length
decreasing_by
  all_goals simp only [List.length_cons]
  · exact Nat.lt_succ_of_le (List.dropWhile_sublist isDigitCh).length_le
  · exact Nat.lt_succ_self _

/-- The int64_t value of one digit run under the accumulation
value = value * 10 + digit. -/
def runValue (run : List Char) : Int :=
  run.foldl accStep 0

/-- MatmulShape of matmul_runner.cpp: result C is m by n, operand A is m by k,
operand B is k by n; the components are int64_t values. -/
structure MatmulShape where
  m : Int
  k : Int
  n : Int
deriving DecidableEq, Repr

/-- parse_shapes of matmul_runner.cpp (lines 68 to 88): extract the numbers of
the shape text, require at least four, read them as (m, k, k2, n), require
k = k2, and when six or more are present require numbers four and five to
equal m and n; numbers past index five are never read. -/
def parse_shapes (shapes_json : List Char) : Except OpError MatmulShape :=
  let nums := extract_numbers shapes_json
  if nums.length < 4 then .error .shapeFormatError
  else
    let m := nums.getD 0 0
    let k := nums.getD 1 0
    let k2 := nums.getD 2 0
    let n := nums.getD 3 0
    if k ≠ k2 then .error .shapeMismatchError
    else if 6 ≤ nums.length then
      let out_m := nums.getD 4 0
      let out_n := nums.getD 5 0
      if out_m ≠ m ∨ out_n ≠ n then .error .shapeMismatchError
      else .ok ⟨m, k, n⟩
    else .ok ⟨m, k, n⟩

/-- A raw file byte. -/
abbrev Byte := Fin 256

/-- The element grouping performed by read_file: the buffer holds
count elements, each element being the next w consecutive bytes of the
stream (native byte order, no conversion). -/
def chunkBytes (w : Nat) : Nat → List Byte → List (List Byte)
  | 0, _ => []
  | count + 1, bytes => bytes.take w :: chunkBytes w count (bytes.drop w)

/-- read_file of matmul_runner.cpp (lines 91 to 107) and op_runner.cpp on a
readable file given as its byte content: reject a byte length that is not a
multiple of the element width w = sizeof(T), otherwise read
byte_length / w elements of w bytes each. -/
def read_file (w : Nat) (bytes : List Byte) : Except OpError (List (List Byte)) :=
  if bytes.length % w ≠ 0 then .error .sizeMismatchError
  else .ok (chunkBytes w (bytes.length / w) bytes)

/-- write_file of matmul_runner.cpp (lines 110 to 121): the file content is
the concatenation of the element bytes in order. -/
def write_file (data : List (List Byte)) : List Byte :=
  data.flatten

/-- The recognized dtype set. -/
inductive DtypeTag where
  | float32
  | int32
deriving DecidableEq, Repr

/-- The dtype dispatch of main in matmul_runner.cpp (lines 147 to 153) and
op_runner.cpp (lines 86 to 98): exact string comparison against float32 and
int32, any other tag raising the unsupported-dtype error that carries it. -/
def resolve (tag : String) : Except OpError DtypeTag :=
  if tag = "float32" then .ok .float32
  else if tag = "int32" then .ok .int32
  else .error (.unsupportedDtypeError tag)

/-- The innermost loop of matmul_kernel (matmul_kernel.cpp lines 7 to 17):
acc starts at the zero of the element type and accumulates
a[i * k + kk] * b[kk * n + j] for kk below k, in the arithmetic of the
element type. -/
def matmulAcc [Add α] [Mul α] [Zero α] (a b : List α) (k n i j : Nat) : α :=
  (List.range k).foldl
    (fun acc kk => acc + a.getD (i * k + kk) 0 * b.getD (kk * n + j) 0) 0

/-- matmul_kernel of matmul_kernel.cpp: for each i below m and j below n,
write the accumulated product into position i * n + j of the output buffer c,
the template element type supplying the arithmetic. -/
def matmul_kernel [Add α] [Mul α] [Zero α] (a b c : List α) (m k n : Nat) :
    List α :=
  (List.range m).foldl
    (fun acc i =>
      (List.range n).foldl
        (fun acc2 j => acc2.set (i * n + j) (matmulAcc a b k n i j)) acc)
    c

/-- The compute step of run_matmul (matmul_runner.cpp lines 132 to 135): the
output buffer is freshly allocated with m * n zero elements and the kernel
then writes into it. -/
def matmulOut [Add α] [Mul α] [Zero α] (a b : List α) (m k n : Nat) : List α :=
  matmul_kernel a b (List.replicate (m * n) 0) m k n

/-- run_matmul of matmul_runner.cpp (lines 124 to 136) after the operands are
decoded: the operand lengths are checked against the shape before the output
buffer exists, and only on success is the output computed. -/
def run_matmul [Add α] [Mul α] [Zero α] (a b : List α) (m k n : Nat) :
    Except OpError (List α) :=
  if a.length ≠ m * k ∨ b.length ≠ k * n then .error .sizeMismatchError
  else .ok (matmulOut a b m k n)

/-- A bounded write loop: starting from buffer c, set position base + j to
g j for each j below t, in increasing j.  The inner loop of matmul_kernel is
this loop at base = i * n. -/
def writeRow (g : Nat → α) (base t : Nat) (c : List α) : List α :=
  (List.range t).foldl (fun acc j => acc.set (base + j) (g j)) c

theorem chunkBytes_length (w count : Nat) :
    ∀ bytes : List Byte, (chunkBytes w count bytes).length = count := by
  induction count with
  | zero => intro bytes; simp [chunkBytes]
  | succ q ih => intro bytes; simp [chunkBytes, ih]

theorem chunkBytes_flatten (w : Nat) :
    ∀ (count : Nat) (bytes : List Byte), bytes.length = count * w →
      (chunkBytes w count bytes).flatten = bytes := by
  intro count
  induction count with
  | zero =>
    intro bytes h
    rw [Nat.zero_mul] at h
    simp [chunkBytes, List.eq_nil_of_length_eq_zero h]
  | succ q ih =>
    intro bytes h
    rw [Nat.succ_mul] at h
    have hdrop : (bytes.drop w).length = q * w := by
      rw [List.length_drop, h, Nat.add_sub_cancel]
    simp only [chunkBytes, List.flatten_cons, ih (bytes.drop w) hdrop,
      List.take_append_drop]

theorem chunkBytes_mem_length (w : Nat) :
    ∀ (count : Nat) (bytes : List Byte), bytes.length = count * w →
      ∀ chunk ∈ chunkBytes w count bytes, chunk.length = w := by
  intro count
  induction count with
  | zero => intro bytes h chunk hc; simp [chunkBytes] at hc
  | succ q ih =>
    intro bytes h chunk hc
    rw [Nat.succ_mul] at h
    simp only [chunkBytes, List.mem_cons] at hc
    rcases hc with hc | hc
    · subst hc
      rw [List.length_take]
      exact min_eq_left (by rw [h]; exact Nat.le_add_left w (q * w))
    · exact ih (bytes.drop w)
        (by rw [List.length_drop, h, Nat.add_sub_cancel]) chunk hc

/-- C4: on a readable file, read_file fails with the size-mismatch error
exactly when the byte length is not a multiple of the element width w, and
otherwise succeeds with a buffer of byte_length / w elements of w bytes each
whose bytes, concatenated in order, are exactly the bytes of the file. -/
theorem read_file_spec (w : Nat) (bytes : List Byte) (hw : 0 < w) :
    (read_file w bytes = .error .sizeMismatchError ↔ ¬ w ∣ bytes.length) ∧
    (w ∣ bytes.length →
      ∃ data, read_file w bytes = .ok data ∧
        data.length = bytes.length / w ∧ data.flatten = bytes ∧
        ∀ chunk ∈ data, chunk.length = w) := by
  constructor
  · rw [Nat.dvd_iff_mod_eq_zero]
    unfold read_file
    split
    case isTrue h => simp [h]
    case isFalse h => simp [h]
  · intro hdvd
    have hmod : bytes.length % w = 0 := Nat.dvd_iff_mod_eq_zero.mp hdvd
    have hmul : bytes.length / w * w = bytes.length := Nat.div_mul_cancel hdvd
    refine ⟨chunkBytes w (bytes.length / w) bytes, ?_, ?_, ?_, ?_⟩
    · unfold read_file
      rw [if_neg (by simp [hmod])]
    · exact chunkBytes_length w _ bytes
    · exact chunkBytes_flatten w _ bytes hmul.symm
    · exact chunkBytes_mem_length w _ bytes hmul.symm

theorem read_file_spec_witness :
    (0 : Nat) < 4 ∧ ¬ (4 : Nat) ∣ ([0, 0, 0] : List Byte).length ∧
      read_file 4 ([0, 0, 0] : List Byte) = .error .sizeMismatchError :=
  ⟨by decide, by decide, (read_file_spec 4 [0, 0, 0] (by decide)).1.mpr (by decide)⟩

theorem flatten_length_of_const (w : Nat) :
    ∀ data : List (List Byte), (∀ chunk ∈ data, chunk.length = w) →
      (write_file data).length = data.length * w := by
  intro data
  induction data with
  | nil => intro _; simp [write_file]
  | cons c rest ih =>
    intro h
    have hc : c.length = w := h c (by simp)
    have hrest := ih fun chunk hch => h chunk (by simp [hch])
    simp only [write_file, List.flatten_cons, List.length_append,
      List.length_cons] at hrest ⊢
    rw [hc, hrest, Nat.succ_mul]
    exact Nat.add_comm w (rest.length * w)

theorem chunkBytes_flatten_inv (w : Nat) :
    ∀ data : List (List Byte), (∀ chunk ∈ data, chunk.length = w) →
      chunkBytes w data.length data.flatten = data := by
  intro data
  induction data with
  | nil => intro _; simp [chunkBytes]
  | cons c rest ih =>
    intro h
    have hc : c.length = w := h c (by simp)
    have h1 : (c ++ rest.flatten).take w = c := by
      rw [← hc]; exact List.take_left c rest.flatten
    have h2 : (c ++ rest.flatten).drop w = rest.flatten := by
      rw [← hc]; exact List.drop_left c rest.flatten
    simp only [List.length_cons, List.flatten_cons, chunkBytes, h1, h2]
    rw [ih fun chunk hch => h chunk (by simp [hch])]

/-- C5: encoding a buffer whose elements are w bytes each with write_file and
decoding the resulting bytes with read_file at the same width reproduces the
buffer exactly. -/
theorem encode_decode_roundtrip (w : Nat) (data : List (List Byte)) (hw : 0 < w)
    (hdata : ∀ chunk ∈ data, chunk.length = w) :
    read_file w (write_file data) = .ok data := by
  have hlen : (write_file data).length = data.length * w :=
    flatten_length_of_const w data hdata
  unfold read_file
  rw [if_neg (by rw [hlen]; simp [Nat.mul_mod_left])]
  have hdiv : (write_file data).length / w = data.length := by
    rw [hlen]; exact Nat.mul_div_cancel _ hw
  rw [hdiv]
  simp only [write_file]
  rw [chunkBytes_flatten_inv w data hdata]

theorem encode_decode_roundtrip_witness :
    (0 : Nat) < 4 ∧
      (∀ chunk ∈ ([[1, 2, 3, 4], [5, 6, 7, 8]] : List (List Byte)),
        chunk.length = 4) ∧
      read_file 4 (write_file ([[1, 2, 3, 4], [5, 6, 7, 8]] : List (List Byte)))
        = .ok [[1, 2, 3, 4], [5, 6, 7, 8]] :=
  ⟨by decide, by decide, encode_decode_roundtrip 4 _ (by decide) (by decide)⟩

/-- C10: a zero-byte file decodes successfully to the empty buffer for any
positive element width: zero is an exact multiple of the width, and the
zero-length read is not an input failure. -/
theorem read_file_empty (w : Nat) (hw : 0 < w) :
    read_file w ([] : List Byte) = .ok [] := by
  unfold read_file
  rw [if_neg (by simp)]
  simp [chunkBytes]

theorem read_file_empty_witness : read_file 4 ([] : List Byte) = .ok [] :=
  read_file_empty 4 (by decide)

/-- C8: dtype resolution succeeds exactly on the exact case-sensitive strings
float32 and int32, mapping them to the two dtype tags, and fails with the
unsupported-dtype error carrying the offending tag on every other string;
float64 in particular is rejected. -/
theorem resolve_spec (tag : String) :
    (resolve tag = .ok .float32 ↔ tag = "float32") ∧
    (resolve tag = .ok .int32 ↔ tag = "int32") ∧
    (tag ≠ "float32" → tag ≠ "int32" →
      resolve tag = .error (.unsupportedDtypeError tag)) ∧
    resolve ("float64") = .error (.unsupportedDtypeError ("float64")) := by
  refine ⟨⟨?_, ?_⟩, ⟨?_, ?_⟩, ?_, rfl⟩
  · intro h
    by_contra hne
    unfold resolve at h
    rw [if_neg hne] at h
    split_ifs at h <;> simp_all
  · intro h; subst h; rfl
  · intro h
    by_contra hne
    unfold resolve at h
    split_ifs at h <;> simp_all
  · intro h; subst h; rfl
  · intro h1 h2
    unfold resolve
    rw [if_neg h1, if_neg h2]

theorem resolve_spec_witness :
    resolve ("int32") = .ok .int32 ∧
      resolve ("float64") = .error (.unsupportedDtypeError ("float64")) :=
  ⟨(resolve_spec ("int32")).2.1.mpr rfl, (resolve_spec ("x")).2.2.2⟩

/-- C6: after the operands are decoded, run_matmul fails with the
size-mismatch error whenever an operand length disagrees with the shape, the
check preceding the allocation of the output buffer, so a failed run yields
no output at all. -/
theorem run_matmul_size_check [Add α] [Mul α] [Zero α] (a b : List α)
    (m k n : Nat) (h : a.length ≠ m * k ∨ b.length ≠ k * n) :
    run_matmul a b m k n = .error .sizeMismatchError ∧
      ∀ out, run_matmul a b m k n ≠ .ok out := by
  have he : run_matmul a b m k n = .error .sizeMismatchError := by
    unfold run_matmul
    rw [if_pos h]
  exact ⟨he, fun out hc => by rw [he] at hc; exact Except.noConfusion hc⟩

theorem run_matmul_size_check_witness :
    (([1, 2, 3] : List Int).length ≠ 2 * 2 ∨
        ([1, 2, 3, 4] : List Int).length ≠ 2 * 2) ∧
      run_matmul ([1, 2, 3] : List Int) [1, 2, 3, 4] 2 2 2
        = .error .sizeMismatchError :=
  ⟨by decide,
    (run_matmul_size_check ([1, 2, 3] : List Int) [1, 2, 3, 4] 2 2 2
      (by decide)).1⟩

theorem writeRow_succ (g : Nat → α) (base t : Nat) (buf : List α) :
    writeRow g base (t + 1) buf = (writeRow g base t buf).set (base + t) (g t) := by
  unfold writeRow
  rw [List.range_succ, List.foldl_append]
  rfl

theorem length_writeRow (g : Nat → α) (base t : Nat) (buf : List α) :
    (writeRow g base t buf).length = buf.length := by
  induction t with
  | zero => rfl
  | succ q ih => rw [writeRow_succ, List.length_set, ih]

theorem writeRow_getElem_lt (g : Nat → α) (base t : Nat) (buf : List α)
    (p : Nat) (hp : p < base) :
    (writeRow g base t buf)[p]? = buf[p]? := by
  induction t with
  | zero => rfl
  | succ q ih =>
    rw [writeRow_succ, List.getElem?_set_ne (by omega), ih]

theorem writeRow_getElem_self (g : Nat → α) (base t : Nat) (buf : List α)
    (j : Nat) (hj : j < t) (hlen : base + j < buf.length) :
    (writeRow g base t buf)[base + j]? = some (g j) := by
  induction t with
  | zero => exact absurd hj (Nat.not_lt_zero j)
  | succ q ih =>
    rw [writeRow_succ]
    rcases Nat.lt_or_ge j q with hlt | hge
    · rw [List.getElem?_set_ne (by omega)]
      exact ih hlt
    · have hjq : j = q := by omega
      subst hjq
      exact List.getElem?_set_self (by rw [length_writeRow]; exact hlen)

theorem matmul_kernel_succ [Add α] [Mul α] [Zero α] (a b buf : List α)
    (m k n : Nat) :
    matmul_kernel a b buf (m + 1) k n =
      writeRow (fun j => matmulAcc a b k n m j) (m * n) n
        (matmul_kernel a b buf m k n) := by
  unfold matmul_kernel
  rw [List.range_succ, List.foldl_append]
  rfl

theorem length_matmul_kernel [Add α] [Mul α] [Zero α] (a b buf : List α)
    (m k n : Nat) : (matmul_kernel a b buf m k n).length = buf.length := by
  induction m with
  | zero => rfl
  | succ q ih => rw [matmul_kernel_succ, length_writeRow, ih]

theorem matmul_kernel_getElem [Add α] [Mul α] [Zero α] (a b buf : List α)
    (m k n i j : Nat) (hi : i < m) (hj : j < n) (hc : i * n + j < buf.length) :
    (matmul_kernel a b buf m k n)[i * n + j]? = some (matmulAcc a b k n i j) := by
  induction m with
  | zero => exact absurd hi (Nat.not_lt_zero i)
  | succ q ih =>
    rw [matmul_kernel_succ]
    rcases Nat.lt_or_ge i q with hlt | hge
    · have hp : i * n + j < q * n := by
        calc i * n + j < (i + 1) * n := by rw [Nat.succ_mul]; omega
        _ ≤ q * n := Nat.mul_le_mul_right n hlt
      rw [writeRow_getElem_lt _ _ _ _ _ hp]
      exact ih hlt
    · have hiq : i = q := by omega
      subst hiq
      exact writeRow_getElem_self _ _ _ _ j hj
        (by rw [length_matmul_kernel]; exact hc)

theorem foldl_add_eq_sum [AddCommMonoid α] (f : Nat → α) :
    ∀ (t : Nat) (x : α),
      (List.range t).foldl (fun acc p => acc + f p) x
        = x + ∑ p ∈ Finset.range t, f p := by
  intro t
  induction t with
  | zero => intro x; simp
  | succ q ih =>
    intro x
    rw [List.range_succ, List.foldl_append]
    simp only [List.foldl_cons, List.foldl_nil]
    rw [ih, Finset.sum_range_succ, add_assoc]

theorem matmulAcc_eq_sum [AddCommMonoid α] [Mul α] (a b : List α)
    (k n i j : Nat) :
    matmulAcc a b k n i j =
      ∑ p ∈ Finset.range k, a.getD (i * k + p) 0 * b.getD (p * n + j) 0 := by
  unfold matmulAcc
  exact ((foldl_add_eq_sum _ k 0).trans (zero_add _))

/-- C3: for operands sized to the shape, the matmul compute step writes into a
freshly allocated zero buffer of m * n elements, and element i * n + j of the
result is the sum over p below k of a[i * k + p] * b[p * n + j], products and
sums taken in the arithmetic of the element type. -/
theorem matmul_kernel_spec [AddCommMonoid α] [Mul α] (a b : List α)
    (m k n i j : Nat) (ha : a.length = m * k) (hb : b.length = k * n)
    (hi : i < m) (hj : j < n) :
    (matmulOut a b m k n).length = m * n ∧
    (matmulOut a b m k n)[i * n + j]? =
      some (∑ p ∈ Finset.range k,
        a.getD (i * k + p) 0 * b.getD (p * n + j) 0) := by
  constructor
  · unfold matmulOut
    rw [length_matmul_kernel, List.length_replicate]
  · unfold matmulOut
    rw [matmul_kernel_getElem a b _ m k n i j hi hj
      (by rw [List.length_replicate]
          calc i * n + j < (i + 1) * n := by rw [Nat.succ_mul]; omega
          _ ≤ m * n := Nat.mul_le_mul_right n hi),
      matmulAcc_eq_sum]

theorem matmul_kernel_spec_witness :
    ([1, 0, 0, 1] : List Int).length = 2 * 2 ∧
      ([5, 6, 7, 8] : List Int).length = 2 * 2 ∧
      matmulOut ([1, 0, 0, 1] : List Int) [5, 6, 7, 8] 2 2 2 = [5, 6, 7, 8] ∧
      (matmulOut ([1, 0, 0, 1] : List Int) [5, 6, 7, 8] 2 2 2)[0 * 2 + 1]? =
        some (∑ p ∈ Finset.range 2,
          ([1, 0, 0, 1] : List Int).getD (0 * 2 + p) 0 *
            ([5, 6, 7, 8] : List Int).getD (p * 2 + 1) 0) :=
  ⟨by decide, by decide, by decide,
    (matmul_kernel_spec ([1, 0, 0, 1] : List Int) [5, 6, 7, 8] 2 2 2 0 1
      (by decide) (by decide) (by decide) (by decide)).2⟩

/-- C1: case analysis of parse_shapes over the extracted number sequence:
fewer than four numbers is the format error; with numbers 0 to 3 read as
m, k, k2, n, a k disagreement is the mismatch error; with six or more
numbers a declared result shape differing from (m, n) is the mismatch error;
in every remaining case the shape (m, k, n) is returned, numbers past index
five never being read. -/
theorem parse_shapes_spec (s : List Char) (nums : List Int)
    (hn : extract_numbers s = nums) :
    (nums.length < 4 → parse_shapes s = .error .shapeFormatError) ∧
    (4 ≤ nums.length → nums.getD 1 0 ≠ nums.getD 2 0 →
      parse_shapes s = .error .shapeMismatchError) ∧
    (4 ≤ nums.length → nums.getD 1 0 = nums.getD 2 0 → 6 ≤ nums.length →
      (nums.getD 4 0 ≠ nums.getD 0 0 ∨ nums.getD 5 0 ≠ nums.getD 3 0) →
      parse_shapes s = .error .shapeMismatchError) ∧
    (4 ≤ nums.length → nums.getD 1 0 = nums.getD 2 0 → 6 ≤ nums.length →
      nums.getD 4 0 = nums.getD 0 0 → nums.getD 5 0 = nums.getD 3 0 →
      parse_shapes s = .ok ⟨nums.getD 0 0, nums.getD 1 0, nums.getD 3 0⟩) ∧
    (4 ≤ nums.length → nums.getD 1 0 = nums.getD 2 0 → nums.length < 6 →
      parse_shapes s = .ok ⟨nums.getD 0 0, nums.getD 1 0, nums.getD 3 0⟩) := by
  refine ⟨?_, ?_, ?_, ?_, ?_⟩
  · intro h1
    simp only [parse_shapes, hn]
    rw [if_pos h1]
  · intro h1 h2
    simp only [parse_shapes, hn]
    rw [if_neg (by omega), if_pos h2]
  · intro h1 h2 h3 h4
    simp only [parse_shapes, hn]
    rw [if_neg (by omega), if_neg (not_not_intro h2), if_pos h3, if_pos h4]
  · intro h1 h2 h3 h4 h5
    simp only [parse_shapes, hn]
    rw [if_neg (by omega), if_neg (not_not_intro h2), if_pos h3,
      if_neg (by push_neg; exact ⟨h4, h5⟩)]
  · intro h1 h2 h3
    simp only [parse_shapes, hn]
    rw [if_neg (by omega), if_neg (not_not_intro h2), if_neg (by omega)]

theorem parse_shapes_spec_witness :
    extract_numbers (("2,3,3,4").toList) = [2, 3, 3, 4] ∧
      (4 : Nat) ≤ ([2, 3, 3, 4] : List Int).length ∧
      ([2, 3, 3, 4] : List Int).getD 1 0 = ([2, 3, 3, 4] : List Int).getD 2 0 ∧
      ([2, 3, 3, 4] : List Int).length < 6 ∧
      parse_shapes (("2,3,3,4").toList) =
        .ok ⟨([2, 3, 3, 4] : List Int).getD 0 0,
          ([2, 3, 3, 4] : List Int).getD 1 0,
          ([2, 3, 3, 4] : List Int).getD 3 0⟩ :=
  ⟨by decide, by decide, by decide, by decide,
    (parse_shapes_spec (("2,3,3,4").toList) [2, 3, 3, 4] (by decide)).2.2.2.2
      (by decide) (by decide) (by decide)⟩

/-- C9: when exactly five numbers are extracted, the fifth is never
inspected: parsing succeeds with (nums 0, nums 1, nums 3) as soon as
nums 1 equals nums 2, since the declared-result check only runs from six
numbers on. -/
theorem parse_shapes_five (s : List Char) (a b k2 d e : Int)
    (h : extract_numbers s = [a, b, k2, d, e]) (hk : b = k2) :
    parse_shapes s = .ok ⟨a, b, d⟩ := by
  subst hk
  simp [parse_shapes, h, List.getD]

theorem parse_shapes_five_witness :
    extract_numbers (("2,3,3,4,99").toList) = [2, 3, 3, 4, 99] ∧
      parse_shapes (("2,3,3,4,99").toList) = .ok ⟨2, 3, 4⟩ :=
  ⟨by decide,
    parse_shapes_five (("2,3,3,4,99").toList) 2 3 3 4 99 (by decide) rfl⟩

theorem parse_shapes_ok_components (s : List Char) (shape : MatmulShape)
    (h : parse_shapes s = .ok shape) :
    shape.m = (extract_numbers s).getD 0 0 ∧
      shape.k = (extract_numbers s).getD 1 0 ∧
      shape.n = (extract_numbers s).getD 3 0 := by
  simp only [parse_shapes] at h
  split_ifs at h <;> first
    | exact Except.noConfusion h
    | (injection h with h2; subst h2; exact ⟨rfl, rfl, rfl⟩)

theorem int64wrap_zero : int64wrap 0 = 0 := by
  unfold int64wrap
  norm_num

theorem int64wrap_nonneg_eq (v : Int) (h0 : 0 ≤ v) (h1 : v < 2 ^ 63) :
    int64wrap v = v := by
  have hA : (2 : Int) ^ 63 = 9223372036854775808 := by norm_num
  have hB : (2 : Int) ^ 64 = 18446744073709551616 := by norm_num
  rw [hA] at h1
  unfold int64wrap
  rw [hA, hB]
  rw [Int.emod_eq_of_lt (by omega) (by omega)]
  omega

theorem int64wrap_add_mul (y t : Int) :
    int64wrap (y + 2 ^ 64 * t) = int64wrap y := by
  unfold int64wrap
  rw [add_right_comm, Int.add_mul_emod_self_left]

theorem int64wrap_step (x d : Int) :
    int64wrap (int64wrap x * 10 + d) = int64wrap (x * 10 + d) := by
  have hq : int64wrap x = x - 2 ^ 64 * ((x + 2 ^ 63) / 2 ^ 64) := by
    unfold int64wrap
    rw [Int.emod_def]
    ring
  rw [hq]
  have hr : (x - 2 ^ 64 * ((x + 2 ^ 63) / 2 ^ 64)) * 10 + d
      = x * 10 + d + 2 ^ 64 * (-(10 * ((x + 2 ^ 63) / 2 ^ 64))) := by ring
  rw [hr, int64wrap_add_mul]

theorem accStep_wrap (x : Int) (ch : Char) :
    accStep (int64wrap x) ch = int64wrap (x * 10 + ((ch.toNat : Int) - 48)) := by
  unfold accStep
  exact int64wrap_step x _

theorem isDigitCh_toNat {ch : Char} (h : isDigitCh ch = true) :
    48 ≤ ch.toNat ∧ ch.toNat ≤ 57 := by
  simpa [isDigitCh] using h

theorem extractLoop_wrap (cs : List Char) :
    ∀ (values : List Nat) (current : Nat) (inb : Bool),
      extractLoop cs (values.map fun (v : Nat) => int64wrap v)
          (int64wrap (current : Int)) inb
        = (extractLoopN cs values current inb).map fun (v : Nat) => int64wrap v := by
  induction cs with
  | nil =>
    intro values current inb
    cases inb <;> simp [extractLoop, extractLoopN]
  | cons ch rest ih =>
    intro values current inb
    by_cases hc : isDigitCh ch
    · have h48 := (isDigitCh_toNat hc).1
      simp only [extractLoop, extractLoopN, hc, if_true]
      rw [accStep_wrap]
      have hcast : ((current * 10 + (ch.toNat - 48) : Nat) : Int)
          = (current : Int) * 10 + ((ch.toNat : Int) - 48) := by
        push_cast [h48]
        ring
      rw [← hcast]
      exact ih values _ true
    · cases inb
      · simp only [extractLoop, extractLoopN, hc, if_false, Bool.false_eq_true,
          ite_false]
        exact ih values current false
      · simp only [extractLoop, extractLoopN, hc, if_false, Bool.true_eq_false,
          ite_true, ite_false]
        have hl : (values.map fun (v : Nat) => int64wrap v)
              ++ [int64wrap (current : Int)]
            = (values ++ [current]).map fun (v : Nat) => int64wrap v := by
          simp
        rw [hl, show (0 : Int) = int64wrap ((0 : Nat) : Int) by
          rw [Nat.cast_zero, int64wrap_zero]]
        exact ih (values ++ [current]) 0 false

theorem extract_numbers_wrap (s : List Char) :
    extract_numbers s = (extract_numbersN s).map fun (v : Nat) => int64wrap v := by
  have h := extractLoop_wrap s [] 0 false
  simpa [extract_numbers, extract_numbersN, int64wrap_zero] using h

set_option maxRecDepth 8000 in
/-- The claim that every extracted integer is non-negative fails on digit
runs that overflow int64_t: the run 9223372036854775808, that is 2 to the
63rd, wraps to the negative int64_t minimum. -/
theorem extract_numbers_nonneg_cex :
    extract_numbers (("9223372036854775808").toList) = [-(2 ^ 63)] ∧
      ∃ x ∈ extract_numbers (("9223372036854775808").toList), x < 0 := by
  have h : extract_numbers (("9223372036854775808").toList) = [-(2 ^ 63)] := by
    decide
  exact ⟨h, -(2 ^ 63), by rw [h]; exact List.mem_singleton_self _, by norm_num⟩

theorem getD_nonneg (l : List Int) (hl : ∀ x ∈ l, 0 ≤ x) (i : Nat) :
    0 ≤ l.getD i 0 := by
  rcases he : l[i]? with _ | x
  · simp [List.getD_eq_getElem?_getD, he]
  · rw [List.getD_eq_getElem?_getD, he, Option.getD_some]
    exact hl x (List.getElem?_mem he)

/-- C7 amended: when every maximal digit run of the text has value below 2 to
the 63rd, so that the int64_t accumulation never overflows, every integer
produced by extract_numbers is non-negative, and the components of every
successfully parsed shape are then non-negative 64-bit values; digit runs
reaching 2 to the 63rd instead wrap to negative values, the accumulation
being unchecked. -/
theorem extract_numbers_nonneg (s : List Char)
    (h : ∀ v ∈ extract_numbersN s, v < 2 ^ 63) :
    (∀ x ∈ extract_numbers s, 0 ≤ x) ∧
      ∀ shape, parse_shapes s = .ok shape →
        0 ≤ shape.m ∧ 0 ≤ shape.k ∧ 0 ≤ shape.n := by
  have hx : ∀ x ∈ extract_numbers s, 0 ≤ x := by
    intro x hmem
    rw [extract_numbers_wrap] at hmem
    obtain ⟨v, hv, rfl⟩ := List.mem_map.mp hmem
    have hvlt : (v : Int) < 2 ^ 63 := by exact_mod_cast h v hv
    rw [int64wrap_nonneg_eq _ (Int.natCast_nonneg v) hvlt]
    exact Int.natCast_nonneg v
  refine ⟨hx, fun shape hok => ?_⟩
  obtain ⟨hm, hk, hn⟩ := parse_shapes_ok_components s shape hok
  exact ⟨hm ▸ getD_nonneg _ hx 0, hk ▸ getD_nonneg _ hx 1, hn ▸ getD_nonneg _ hx 3⟩

theorem extract_numbers_nonneg_witness :
    (∀ v ∈ extract_numbersN (("2,3,3,4").toList), v < 2 ^ 63) ∧
      ∀ x ∈ extract_numbers (("2,3,3,4").toList), 0 ≤ x :=
  ⟨by decide, (extract_numbers_nonneg (("2,3,3,4").toList) (by decide)).1⟩

theorem extractLoop_runs (cs : List Char) :
    (∀ values : List Int,
        extractLoop cs values 0 false = values ++ (digitRuns cs).map runValue) ∧
      ∀ (values : List Int) (current : Int),
        extractLoop cs values current true
          = values ++ [(cs.takeWhile isDigitCh).foldl accStep current]
            ++ (digitRuns (cs.dropWhile isDigitCh)).map runValue := by
  induction cs with
  | nil =>
    constructor
    · intro values
      simp [extractLoop, digitRuns]
    · intro values current
      simp [extractLoop, digitRuns]
  | cons ch rest ih =>
    obtain ⟨ihA, ihB⟩ := ih
    constructor
    · intro values
      by_cases hc : isDigitCh ch
      · simp only [extractLoop, hc, if_true]
        rw [ihB values (accStep 0 ch)]
        simp [digitRuns, hc, runValue]
      · simp only [extractLoop, hc, if_false, Bool.false_eq_true, ite_false]
        rw [ihA values]
        simp [digitRuns, hc]
    · intro values current
      by_cases hc : isDigitCh ch
      · simp only [extractLoop, hc, if_true]
        rw [ihB values (accStep current ch)]
        simp [List.takeWhile_cons, List.dropWhile_cons, hc]
      · simp only [extractLoop, hc, if_false, Bool.false_eq_true, ite_false,
          ite_true]
        rw [ihA (values ++ [current])]
        simp [List.takeWhile_cons, List.dropWhile_cons, digitRuns, hc]

/-- C2: extract_numbers returns exactly the maximal runs of ASCII decimal
digits of the text, in left-to-right order, each converted by the int64_t
accumulation value = value * 10 + digit, every non-digit character acting
only as a separator; the three specification examples all give
[1, 2, 3, 4]. -/
theorem extract_numbers_runs (s : List Char) :
    extract_numbers s = (digitRuns s).map runValue ∧
      extract_numbers (("1,2,3,4").toList) = [1, 2, 3, 4] ∧
      extract_numbers (("[[1,2],[3,4]]").toList) = [1, 2, 3, 4] ∧
      extract_numbers (("m=1 k=2 k=3 n=4").toList) = [1, 2, 3, 4] := by
  refine ⟨?_, by decide, by decide, by decide⟩
  have h := (extractLoop_runs s).1 []
  simpa [extract_numbers] using h

end Optest
